import Mathlib

/-!
# Verification of the `canparse`/`fastcan` CAN-bus DBC library

Shallow embedding of the core data model and algorithms of the repository:

* the bit-level signal codec of `src/mapper.rs` (`parse_array`,
  `decode_message`, `encode_signal`, and the frame-level
  `encode_message` impls), and
* the ingest/merge engine of `src/dbc/library.rs`
  (`DbcSignal`/`DbcFrame` `from_entry`/`merge_entry`, and
  `DbcLibrary::add_entry`).

Modelling conventions:

* Rust machine integers (`u64`, `u32`, `usize`, `u8`) are embedded as `ℕ`
  with explicit `% 2 ^ 64` where wrap-around matters; `2u64.pow(bit_len) - 1`
  is embedded as `2 ^ bit_len - 1`, which agrees with Rust release-mode
  (wrapping) semantics for every `bit_len` (for `bit_len ≥ 64` both give a
  mask whose conjunction with a value `< 2 ^ 64` is that value).
* Rust floats are embedded as `ℚ`.  Every IEEE-754 `f32`/`f64` value that is
  not a NaN or infinity is a rational, and the primitive float operations are
  correct rounding of the exact rational result, so `f32` multiplication,
  addition and `u64 → f32` casts are modelled by `f32mul`/`f32add`/`f32ofNat`
  below, each of which rounds the exact rational result to the binary32 grid
  (`roundF32`, round-to-nearest ties-to-even, normal range).  The `f64`
  subtraction and division inside `encode_signal` are modelled exactly, and
  its test `data.log2() > bit_len as f64` as `2 ^ bit_len < data` — for
  `data > 0` the real-valued form of the bound, and for `data ≤ 0` `False`,
  matching the Rust comparison against the NaN / `-inf` that `log2` returns
  there.  This model of `encode_signal` is faithful only on inputs where the
  `f64` evaluation of `(signal - offset) / scale` is exact and finite
  (in particular `scale ≠ 0`) and `data` is not within `f64`/libm-`log2`
  rounding distance of the `2 ^ bit_len` boundary; every statement below
  applies `encode_signal` only at such inputs (`scale = 1`, `offset = 0`,
  integer `data` below `2 ^ 26`, compared against `2 ^ bit_len` with ample
  margin).  The exact floating-point boundary of the test is not otherwise
  expressible here: it depends on the platform libm `log2`, whose rounding
  is unspecified.
* `HashMap` is embedded as an association list with unique keys; iteration
  order is the list order (the Rust iteration order is unspecified).
* A Rust `panic!`/`unwrap` failure is a distinguished outcome constructor,
  not an error value.
-/

namespace Canparse

/-! ## Byte-buffer primitives (`byteorder::{LittleEndian, BigEndian}::read_u64`,
`u64::to_le_bytes` / `u64::to_be_bytes`).  Buffers are lists of byte values. -/

/-- `LittleEndian::read_u64`: byte 0 is least significant.  Reads the first
8 bytes (missing bytes read as 0; `decode_message` only calls this on buffers
of length ≥ 8, and `parse_array` on length exactly 8). -/
def readU64LE (msg : List ℕ) : ℕ :=
  msg.getD 0 0 + msg.getD 1 0 * 2 ^ 8 + msg.getD 2 0 * 2 ^ 16 +
    msg.getD 3 0 * 2 ^ 24 + msg.getD 4 0 * 2 ^ 32 + msg.getD 5 0 * 2 ^ 40 +
    msg.getD 6 0 * 2 ^ 48 + msg.getD 7 0 * 2 ^ 56

/-- `BigEndian::read_u64`: byte 0 is most significant. -/
def readU64BE (msg : List ℕ) : ℕ :=
  msg.getD 0 0 * 2 ^ 56 + msg.getD 1 0 * 2 ^ 48 + msg.getD 2 0 * 2 ^ 40 +
    msg.getD 3 0 * 2 ^ 32 + msg.getD 4 0 * 2 ^ 24 + msg.getD 5 0 * 2 ^ 16 +
    msg.getD 6 0 * 2 ^ 8 + msg.getD 7 0

/-- `u64::to_le_bytes`. -/
def toLeBytes (w : ℕ) : List ℕ :=
  [w % 2 ^ 8, w / 2 ^ 8 % 2 ^ 8, w / 2 ^ 16 % 2 ^ 8, w / 2 ^ 24 % 2 ^ 8,
    w / 2 ^ 32 % 2 ^ 8, w / 2 ^ 40 % 2 ^ 8, w / 2 ^ 48 % 2 ^ 8, w / 2 ^ 56 % 2 ^ 8]

/-- `u64::to_be_bytes`. -/
def toBeBytes (w : ℕ) : List ℕ :=
  [w / 2 ^ 56 % 2 ^ 8, w / 2 ^ 48 % 2 ^ 8, w / 2 ^ 40 % 2 ^ 8, w / 2 ^ 32 % 2 ^ 8,
    w / 2 ^ 24 % 2 ^ 8, w / 2 ^ 16 % 2 ^ 8, w / 2 ^ 8 % 2 ^ 8, w % 2 ^ 8]

/-! ## Model of IEEE-754 binary32 rounding

`roundF32 q` rounds the exact rational `q` to the binary32 grid
(24-bit significand), round-to-nearest with ties to even, in the normal
range.  Overflow to infinity and subnormal flushing are outside the range
exercised by any statement in this file and are not modelled. -/

/-- Floor of log2 on naturals, by fuelled structural recursion so that it
reduces definitionally.  Correct for `0 < n < 2 ^ fuel`. -/
def log2floorFuel : ℕ → ℕ → ℕ
  | 0, _ => 0
  | fuel + 1, n => if n < 2 then 0 else log2floorFuel fuel (n / 2) + 1

/-- Least `k` with `1 ≤ a * 2 ^ k`, for `0 < a < 1` (fuelled). -/
def negExpFuel : ℕ → ℚ → ℕ
  | 0, _ => 0
  | fuel + 1, a => if 1 ≤ a then 0 else negExpFuel fuel (2 * a) + 1

/-- The binary exponent of a positive rational: the unique `e` with
`2 ^ e ≤ a < 2 ^ (e + 1)` (within fuel range). -/
def expOfPos (a : ℚ) : ℤ :=
  if 1 ≤ a then (log2floorFuel 4096 ⌊a⌋.toNat : ℤ) else -(negExpFuel 4096 a : ℤ)

/-- Round a rational to an integer, to nearest with ties to even. -/
def roundHalfEven (q : ℚ) : ℤ :=
  if q - ⌊q⌋ < 1 / 2 then ⌊q⌋
  else if 1 / 2 < q - ⌊q⌋ then ⌊q⌋ + 1
  else if 2 ∣ ⌊q⌋ then ⌊q⌋ else ⌊q⌋ + 1

/-- Round an exact rational to the binary32 (f32) grid, to nearest, ties to
even (normal range; see the module docstring). -/
def roundF32 (q : ℚ) : ℚ :=
  if q = 0 then 0
  else
    let a := |q|
    let e := expOfPos a
    let m := roundHalfEven (a * (2 : ℚ) ^ ((23 : ℤ) - e))
    let mag := (m : ℚ) * (2 : ℚ) ^ (e - (23 : ℤ))
    if q < 0 then -mag else mag

/-- `f32` multiplication: correctly rounded exact product. -/
def f32mul (x y : ℚ) : ℚ := roundF32 (x * y)

/-- `f32` addition: correctly rounded exact sum. -/
def f32add (x y : ℚ) : ℚ := roundF32 (x + y)

/-- The Rust cast `u64 as f32`: correctly rounded. -/
def f32ofNat (n : ℕ) : ℚ := roundF32 (n : ℚ)

/-- The Rust saturating cast `f64 as u64`: negative values go to 0, values
beyond `u64::MAX` saturate, otherwise truncation toward zero. -/
def rustCastU64 (q : ℚ) : ℕ :=
  if q < 0 then 0 else min (2 ^ 64 - 1) ⌊q⌋.toNat

/-! ## The signal codec (`src/mapper.rs`) -/

/-- `mapper::parse_array` (src/mapper.rs:243-260): read the 8-byte buffer as a
`u64` in the endianness of the layout, extract `bit_len` bits at `start_bit`, and
convert `raw * scale + offset` in `f32` arithmetic.  Always `Some`. -/
def parse_array (bit_len start_bit : ℕ) (little_endian : Bool)
    (scale offset : ℚ) (msg : List ℕ) : Option ℚ :=
  let msg64 : ℕ := if little_endian then readU64LE msg else readU64BE msg
  let bit_mask : ℕ := 2 ^ bit_len - 1
  some (f32add (f32mul (f32ofNat ((msg64 >>> start_bit) &&& bit_mask)) scale) offset)

/-- `Vec::resize(8, 0x00)` as applied in `decode_message`: right-pad with zero
bytes up to length 8 (no-op on buffers of length ≥ 8). -/
def padTo8 (msg : List ℕ) : List ℕ :=
  msg ++ List.replicate (8 - msg.length) 0

/-- `mapper::decode_message` (src/mapper.rs:264-291): `None` on the empty
buffer, otherwise zero-extend to 8 bytes and proceed as `parse_array`. -/
def decode_message (bit_len start_bit : ℕ) (little_endian : Bool)
    (scale offset : ℚ) (msg : List ℕ) : Option ℚ :=
  if msg = [] then none
  else
    let msg8 := padTo8 msg
    let msg64 : ℕ := if little_endian then readU64LE msg8 else readU64BE msg8
    let bit_mask : ℕ := 2 ^ bit_len - 1
    some (f32add (f32mul (f32ofNat ((msg64 >>> start_bit) &&& bit_mask)) scale) offset)

/-- `mapper::encode_signal` (src/mapper.rs:293-315).  The error string carries
a formatted copy of `data` in the Rust source; the formatting itself is not
modelled.  The `f64` arithmetic and the `log2` comparison are modelled
exactly over `ℚ`; see the module docstring for the input region on which
this is faithful (all uses below stay inside it). -/
def encode_signal (bit_len start_bit : ℕ) (little_endian : Bool)
    (scale offset : ℚ) (signal : ℚ) : Except String (List ℕ) :=
  let data := (signal - offset) / scale
  if (2 : ℚ) ^ bit_len < data then Except.error "Signal does not fit"
  else
    let byte_data := rustCastU64 data * 2 ^ start_bit % 2 ^ 64
    Except.ok (if little_endian then toLeBytes byte_data else toBeBytes byte_data)

/-! ## Data model (`src/dbc/mod.rs`) -/

/-- `dbc::DbcSignalDefinition`: the bit layout of a signal and its physical
conversion parameters (`f32` fields as `ℚ`). -/
structure DbcSignalDefinition where
  name : String
  start_bit : ℕ
  bit_len : ℕ
  little_endian : Bool
  signed : Bool
  scale : ℚ
  offset : ℚ
  min_value : ℚ
  max_value : ℚ
  units : String
  receiving_node : String
  deriving DecidableEq, Repr

/-- `dbc::DbcFrameDefinition` (a `BO_` line). -/
structure DbcFrameDefinition where
  id : ℕ
  name : String
  message_len : ℕ
  sending_node : String
  deriving DecidableEq, Repr

/-- `dbc::DbcMessageDescription` (a `CM_ BO_` line). -/
structure DbcMessageDescription where
  id : ℕ
  description : String
  deriving DecidableEq, Repr

/-- `dbc::DbcMessageAttribute` (a `BA_ ... BO_` line). -/
structure DbcMessageAttribute where
  name : String
  id : ℕ
  value : String
  deriving DecidableEq, Repr

/-- `dbc::DbcSignalDescription` (a `CM_ SG_` line). -/
structure DbcSignalDescription where
  id : ℕ
  signal_name : String
  description : String
  deriving DecidableEq, Repr

/-- `dbc::DbcSignalAttribute` (a `BA_ ... SG_` line). -/
structure DbcSignalAttribute where
  name : String
  id : ℕ
  signal_name : String
  value : String
  deriving DecidableEq, Repr

/-- `dbc::Entry`: the tagged union of grammar facts from one DBC line. -/
inductive Entry where
  | Version (v : String)
  | BusConfiguration (speed : ℚ)
  | MessageDefinition (d : DbcFrameDefinition)
  | MessageDescription (d : DbcMessageDescription)
  | MessageAttribute (d : DbcMessageAttribute)
  | SignalDefinition (d : DbcSignalDefinition)
  | SignalDescription (d : DbcSignalDescription)
  | SignalAttribute (d : DbcSignalAttribute)
  | Unknown (raw : String)
  deriving DecidableEq, Repr

/-- `impl Display for Entry` (via `EntryType`): the variant name. -/
def entryDisplay : Entry → String
  | .Version _ => "Version"
  | .BusConfiguration _ => "BusConfiguration"
  | .MessageDefinition _ => "MessageDefinition"
  | .MessageDescription _ => "MessageDescription"
  | .MessageAttribute _ => "MessageAttribute"
  | .SignalDefinition _ => "SignalDefinition"
  | .SignalDescription _ => "SignalDescription"
  | .SignalAttribute _ => "SignalAttribute"
  | .Unknown _ => "Unknown"

/-! ## Association-list model of `HashMap` -/

/-- `HashMap::get`. -/
def alLookup {α : Type} [DecidableEq α] {β : Type} (l : List (α × β)) (k : α) :
    Option β :=
  match l with
  | [] => none
  | p :: rest => if p.1 = k then some p.2 else alLookup rest k

/-- `HashMap::contains_key`. -/
def alContains {α : Type} [DecidableEq α] {β : Type} (l : List (α × β)) (k : α) :
    Bool :=
  (alLookup l k).isSome

/-- In-place update of the value at an existing key (`get_mut` /
`Entry::and_modify`). -/
def alUpdate {α : Type} [DecidableEq α] {β : Type} (l : List (α × β)) (k : α)
    (v : β) : List (α × β) :=
  l.map fun p => if p.1 = k then (k, v) else p

/-! ## Records and the merge engine (`src/dbc/library.rs`) -/

/-- `library::DbcSignal`: all information accumulated about one named signal.
`value_definition` (`VAL_` tables) is never written by the merge engine. -/
structure DbcSignal where
  attributes : List (String × String)
  description : Option String
  definition : Option DbcSignalDefinition
  value_definition : Option (List String)
  deriving DecidableEq, Repr

/-- `impl FromDbc for DbcSignal::from_entry` (src/dbc/library.rs:272-310). -/
def DbcSignal.from_entry : Entry → Except Unit DbcSignal
  | .SignalDefinition d =>
      .ok { attributes := [], description := none, definition := some d,
            value_definition := none }
  | .SignalDescription d =>
      .ok { attributes := [], description := some d.description,
            definition := none, value_definition := none }
  | .SignalAttribute d =>
      .ok { attributes := [(d.name, d.value)], description := none,
            definition := none, value_definition := none }
  | _ => .error ()

/-- `HashMap::insert` on the attribute map: overwrite an existing key, else
append. -/
def attrInsert (l : List (String × String)) (k v : String) :
    List (String × String) :=
  if alContains l k then alUpdate l k v else l ++ [(k, v)]

/-- `impl FromDbc for DbcSignal::merge_entry` (src/dbc/library.rs:312-339). -/
def DbcSignal.merge_entry (s : DbcSignal) : Entry → Except Unit DbcSignal
  | .SignalDefinition d => .ok { s with definition := some d }
  | .SignalDescription d => .ok { s with description := some d.description }
  | .SignalAttribute d => .ok { s with attributes := attrInsert s.attributes d.name d.value }
  | _ => .error ()

/-- `library::DbcFrame`: all information accumulated about one arbitration
ID.  `Default::default()` gives `id = 0`. -/
structure DbcFrame where
  name : String
  id : ℕ
  message_len : ℕ
  sending_node : String
  attributes : List (String × String)
  description : Option String
  signals : List (String × DbcSignal)
  deriving DecidableEq, Repr

/-- `DbcFrame::default()`. -/
def DbcFrame.default : DbcFrame :=
  { name := "", id := 0, message_len := 0, sending_node := "",
    attributes := [], description := none, signals := [] }

/-- `DbcFrame::get_signals`: the signal records in map-iteration order. -/
def DbcFrame.get_signals (f : DbcFrame) : List DbcSignal :=
  f.signals.map Prod.snd

/-- `DbcFrame::get_signal`. -/
def DbcFrame.get_signal (f : DbcFrame) (name : String) : Option DbcSignal :=
  alLookup f.signals name

/-- `DbcFrame::get_id`. -/
def DbcFrame.get_id (f : DbcFrame) : ℕ := f.id

/-- `impl FromDbc for DbcFrame::from_entry` (src/dbc/library.rs:151-190).
Note that every arm discards the frame `id` of the entry (bound as `_id`), leaving the
default `0`, and that signal-level entries are rejected. -/
def DbcFrame.from_entry : Entry → Except Unit DbcFrame
  | .MessageDefinition d =>
      .ok { DbcFrame.default with
        name := d.name, message_len := d.message_len, sending_node := d.sending_node }
  | .MessageDescription d =>
      .ok { DbcFrame.default with description := some d.description }
  | .MessageAttribute d =>
      .ok { DbcFrame.default with attributes := [(d.name, d.value)] }
  | _ => .error ()

/-- `DbcFrame::merge_entry` (src/dbc/library.rs:192-266): overwrite the
fields this entry kind carries; route signal-level entries into the signal
map with the same create-or-merge rule.  The `id` field is never written. -/
def DbcFrame.merge_entry (f : DbcFrame) : Entry → Except Unit DbcFrame
  | .MessageDefinition d =>
      .ok { f with
        name := d.name, message_len := d.message_len, sending_node := d.sending_node }
  | .MessageDescription d =>
      .ok { f with description := some d.description }
  | .MessageAttribute d =>
      .ok { f with attributes := attrInsert f.attributes d.name d.value }
  | .SignalDefinition d =>
      match alLookup f.signals d.name with
      | some s =>
          match s.merge_entry (.SignalDefinition d) with
          | .ok s2 => .ok { f with signals := alUpdate f.signals d.name s2 }
          | .error e => .error e
      | none =>
          match DbcSignal.from_entry (.SignalDefinition d) with
          | .ok s => .ok { f with signals := f.signals ++ [(d.name, s)] }
          | .error e => .error e
  | .SignalDescription d =>
      match alLookup f.signals d.signal_name with
      | some s =>
          match s.merge_entry (.SignalDescription d) with
          | .ok s2 => .ok { f with signals := alUpdate f.signals d.signal_name s2 }
          | .error e => .error e
      | none =>
          match DbcSignal.from_entry (.SignalDescription d) with
          | .ok s => .ok { f with signals := f.signals ++ [(d.signal_name, s)] }
          | .error e => .error e
  | .SignalAttribute d =>
      match alLookup f.signals d.signal_name with
      | some s =>
          match s.merge_entry (.SignalAttribute d) with
          | .ok s2 => .ok { f with signals := alUpdate f.signals d.signal_name s2 }
          | .error e => .error e
      | none =>
          match DbcSignal.from_entry (.SignalAttribute d) with
          | .ok s => .ok { f with signals := f.signals ++ [(d.signal_name, s)] }
          | .error e => .error e
  | _ => .error ()

/-- `library::DbcLibrary`: frame map plus the `last_id` context used to
attribute ID-less `SG_` entries. -/
structure DbcLibrary where
  last_id : Option ℕ
  frames : List (ℕ × DbcFrame)
  deriving DecidableEq, Repr

/-- `DbcLibrary::default()`. -/
def dbDefault : DbcLibrary := { last_id := none, frames := [] }

/-- `DbcLibrary::get_frame`. -/
def DbcLibrary.get_frame (lib : DbcLibrary) (id : ℕ) : Option DbcFrame :=
  alLookup lib.frames id

/-- Outcome of a call to `DbcLibrary::add_entry` on a `&mut` library:
`ok` with the updated library, `err` with the error string and the
(unchanged) library, or a `panic!` abort. -/
inductive AddRes where
  | ok (lib : DbcLibrary)
  | err (msg : String) (lib : DbcLibrary)
  | panicked
  deriving DecidableEq, Repr

/-- The create-or-merge block of `DbcLibrary::add_entry` once the target
frame ID is resolved: `self.frames.entry(_id).and_modify(..).or_insert_with(..)`
followed by `self.last_id = Some(_id)`.  The `unwrap_or_else(|_| panic!(..))`
closures inside `and_modify`/`or_insert_with` are the `panicked` outcome. -/
def addResolved (lib : DbcLibrary) (entry : Entry) (id : ℕ) : AddRes :=
  match alLookup lib.frames id with
  | some f =>
      match f.merge_entry entry with
      | .ok f2 => .ok { last_id := some id, frames := alUpdate lib.frames id f2 }
      | .error _ => .panicked
  | none =>
      match DbcFrame.from_entry entry with
      | .ok f => .ok { last_id := some id, frames := lib.frames ++ [(id, f)] }
      | .error _ => .panicked

/-- `DbcLibrary::add_entry` (src/dbc/library.rs:448-483): resolve the target
frame ID, then create-or-merge the frame record and update `last_id`
(`addResolved`). -/
def DbcLibrary.add_entry (lib : DbcLibrary) (entry : Entry) : AddRes :=
  match entry with
  | .MessageDefinition d => addResolved lib entry d.id
  | .MessageDescription d => addResolved lib entry d.id
  | .MessageAttribute d => addResolved lib entry d.id
  | .SignalDefinition _ =>
      match lib.last_id with
      | some last => addResolved lib entry last
      | none => .err "Tried to add SignalDefinition without last ID." lib
  | .SignalDescription d => addResolved lib entry d.id
  | .SignalAttribute d => addResolved lib entry d.id
  | e => .err ("Unsupported entry: " ++ entryDisplay e ++ ".") lib

/-- Run `add_entry` keeping the library state the call leaves behind (on
`Ok` the updated library, on `Err` the untouched one; after a panic the
process is gone, so the pre-call state is returned for totality). -/
def addOk (lib : DbcLibrary) (e : Entry) : DbcLibrary :=
  match lib.add_entry e with
  | .ok l => l
  | .err _ l => l
  | .panicked => lib

/-! ## Frame-level encode (`impl EncodeMessage for DbcFrame`,
src/mapper.rs:138-171 and 205-238; the `Vec<u8>` and `[u8; 8]` impls run the
identical loop). -/

/-- Outcome of `encode_message`: the `get_definition()` unwrap on a signal
with no layout is a panic. -/
inductive EncRes where
  | ok (bytes : List ℕ)
  | err (msg : String)
  | panicked
  deriving DecidableEq, Repr

/-- `for i in 0..7 { result[i] |= byte_data[i] }`: OR-combine the first
seven bytes only, leaving byte index 7 of the accumulator untouched. -/
def orFirst7 (acc b : List ℕ) : List ℕ :=
  List.ofFn (n := 8) fun i =>
    if (i : ℕ) < 7 then acc.getD i 0 ||| b.getD i 0 else acc.getD i 0

/-- The signal loop of `encode_message`: for each signal, look up its value
(`Missing signal data` on absence), `encode_signal` it, and OR the 8-byte
contribution into the accumulator via `orFirst7`. -/
def encodeLoop : List DbcSignal → List (String × ℚ) → List ℕ → EncRes
  | [], _, acc => .ok acc
  | s :: rest, signal_map, acc =>
      match s.definition with
      | none => .panicked
      | some d =>
          match alLookup signal_map d.name with
          | none => .err ("Missing signal data: " ++ d.name)
          | some v =>
              match encode_signal d.bit_len d.start_bit d.little_endian
                  d.scale d.offset v with
              | .error e => .err ("Error encoding signal: " ++ e)
              | .ok b => encodeLoop rest signal_map (orFirst7 acc b)

/-- `DbcFrame::encode_message`. -/
def DbcFrame.encode_message (f : DbcFrame) (signal_map : List (String × ℚ)) :
    EncRes :=
  encodeLoop f.get_signals signal_map (List.replicate 8 0)

/-- The signal-level `decode_message` trait impl for byte vectors
(src/mapper.rs:96-105) forwards the layout fields of the
definition; `get_definition()` panics (`None` here) when the signal has no
layout. -/
def DbcSignal.decode_message (s : DbcSignal) (msg : List ℕ) : Option ℚ :=
  match s.definition with
  | none => none
  | some d => Canparse.decode_message d.bit_len d.start_bit d.little_endian
      d.scale d.offset msg

/-- Signal-level decode expressed directly on a layout
(`DbcSignalDefinition`), as forwarded by both `DecodeMessage` impls. -/
def DbcSignalDefinition.decode (d : DbcSignalDefinition) (msg : List ℕ) :
    Option ℚ :=
  Canparse.decode_message d.bit_len d.start_bit d.little_endian d.scale
    d.offset msg

/-- A layout occupying bits 56..63 (the top byte of a little-endian word):
its 8-byte encoded contribution is entirely in byte index 7. -/
def sigHighDef : DbcSignalDefinition :=
  { name := "S", start_bit := 56, bit_len := 8, little_endian := true,
    signed := false, scale := 1, offset := 0, min_value := 0, max_value := 0,
    units := "", receiving_node := "" }

/-- A signal record holding `sigHighDef`. -/
def sigHigh : DbcSignal :=
  { attributes := [], description := none, definition := some sigHighDef,
    value_definition := none }

/-- A frame owning the single signal `sigHigh` (non-overlap is trivial). -/
def frameHigh : DbcFrame :=
  { name := "F", id := 0, message_len := 8, sending_node := "N",
    attributes := [], description := none, signals := [("S", sigHigh)] }

/-! ## Helper lemmas on bit extraction and serialization -/

theorem extract_eq_div_mod (w s L : ℕ) :
    (w >>> s) &&& (2 ^ L - 1) = w / 2 ^ s % 2 ^ L := by
  rw [Nat.shiftRight_eq_div_pow, Nat.and_pow_two_sub_one_eq_mod]

theorem extract_lt (w s L : ℕ) : (w >>> s) &&& (2 ^ L - 1) < 2 ^ L := by
  rw [extract_eq_div_mod]
  exact Nat.mod_lt _ (Nat.pos_pow_of_pos L (by norm_num))

/-- Bits above position 55 do not affect an extraction that ends at or
below bit 55. -/
theorem extract_add_high (w h s L : ℕ) (hs : s + L ≤ 56) :
    ((w + h * 2 ^ 56) >>> s) &&& (2 ^ L - 1) = (w >>> s) &&& (2 ^ L - 1) := by
  rw [extract_eq_div_mod, extract_eq_div_mod]
  have hsplit : h * 2 ^ 56 = h * 2 ^ (56 - s - L) * 2 ^ L * 2 ^ s := by
    rw [mul_assoc, mul_assoc, ← pow_add, ← pow_add]
    congr 2
    omega
  rw [hsplit, Nat.add_mul_div_right _ _ (Nat.pos_pow_of_pos s (by norm_num)),
    Nat.add_mul_mod_self_right]

theorem readU64LE_toLeBytes (w : ℕ) (hw : w < 2 ^ 64) :
    readU64LE (toLeBytes w) = w := by
  simp only [readU64LE, toLeBytes, List.getD_cons_zero, List.getD_cons_succ]
  omega

theorem readU64BE_toBeBytes (w : ℕ) (hw : w < 2 ^ 64) :
    readU64BE (toBeBytes w) = w := by
  simp only [readU64BE, toBeBytes, List.getD_cons_zero, List.getD_cons_succ]
  omega

/-! ## Helper lemmas for the binary32 rounding model -/

theorem roundF32_zero : roundF32 0 = 0 := by simp [roundF32]

theorem log2floorFuel_correct : ∀ (fuel n : ℕ), 0 < n → n < 2 ^ fuel →
    2 ^ log2floorFuel fuel n ≤ n ∧ n < 2 ^ (log2floorFuel fuel n + 1)
  | 0, n, hn, hlt => by simp at hlt; omega
  | fuel + 1, n, hn, hlt => by
    rw [log2floorFuel]
    by_cases h2 : n < 2
    · simp [h2]
      omega
    · have hrec := log2floorFuel_correct fuel (n / 2) (by omega)
        (by rw [pow_succ] at hlt; omega)
      simp only [h2, if_false]
      set r := log2floorFuel fuel (n / 2) with hr
      constructor
      · calc 2 ^ (r + 1) = 2 ^ r * 2 := by rw [pow_succ]
        _ ≤ n / 2 * 2 := by omega
        _ ≤ n := Nat.div_mul_le_self n 2
      · have : n < 2 ^ (r + 1) * 2 := by
          have hd : n / 2 < 2 ^ (r + 1) := hrec.2
          omega
        rw [← pow_succ] at this
        exact this

theorem roundHalfEven_intCast (m : ℤ) : roundHalfEven (m : ℚ) = m := by
  simp [roundHalfEven]

/-- Exactness of the binary32 rounding model on dyadic rationals `n / 2 ^ k`
with `n < 2 ^ 24` and `n / 2 ^ k ≥ 1`: such values are exactly representable
and rounding returns them unchanged. -/
theorem roundF32_dyadic (n k : ℕ) (h1 : 2 ^ k ≤ n) (h2 : n < 2 ^ 24) :
    roundF32 ((n : ℚ) / 2 ^ k) = (n : ℚ) / 2 ^ k := by
  set q : ℚ := (n : ℚ) / 2 ^ k with hq
  have hk2 : (0 : ℚ) < 2 ^ k := by positivity
  have hq1 : 1 ≤ q := by
    rw [hq, le_div_iff hk2, one_mul]
    exact_mod_cast h1
  have hq0 : 0 < q := lt_of_lt_of_le one_pos hq1
  have hfln : ⌊q⌋.toNat = n / 2 ^ k := by
    rw [hq]
    have h8 : ((2 : ℚ) ^ k) = ((2 ^ k : ℕ) : ℚ) := by push_cast; ring
    rw [h8, Int.floor_toNat, Nat.floor_div_eq_div]
  have hm0pos : 0 < n / 2 ^ k := Nat.div_pos h1 (Nat.pos_pow_of_pos k (by norm_num))
  have hm0lt : n / 2 ^ k < 2 ^ 4096 :=
    lt_of_le_of_lt (Nat.div_le_self _ _) (lt_trans h2 (Nat.pow_lt_pow_right (by norm_num) (by norm_num)))
  have hexp : expOfPos q = (log2floorFuel 4096 (n / 2 ^ k) : ℤ) := by
    unfold expOfPos
    rw [if_pos hq1, hfln]
  set E : ℕ := log2floorFuel 4096 (n / 2 ^ k) with hE
  obtain ⟨hEl, hEu⟩ := log2floorFuel_correct 4096 (n / 2 ^ k) hm0pos hm0lt
  -- 2 ^ E ≤ q < 2 ^ (E + 1)
  have hql : (2 : ℚ) ^ E ≤ q := by
    calc (2 : ℚ) ^ E ≤ ((n / 2 ^ k : ℕ) : ℚ) := by exact_mod_cast hEl
    _ ≤ q := by
        rw [hq, le_div_iff hk2]
        exact_mod_cast Nat.div_mul_le_self n (2 ^ k)
  -- E + k ≤ 23
  have hEk : E + k ≤ 23 := by
    by_contra hcon
    have h24 : 24 ≤ E + k := by omega
    have : (2 : ℚ) ^ (E + k) ≤ (n : ℚ) := by
      rw [pow_add]
      calc (2 : ℚ) ^ E * 2 ^ k ≤ q * 2 ^ k := by
            exact mul_le_mul_of_nonneg_right hql (le_of_lt hk2)
      _ = (n : ℚ) := by rw [hq]; field_simp
    have hn24 : (2 : ℕ) ^ (E + k) ≤ n := by exact_mod_cast this
    have : (2 : ℕ) ^ 24 ≤ 2 ^ (E + k) := Nat.pow_le_pow_right (by norm_num) h24
    omega
  -- q * 2 ^ (23 - E) is the natural number n * 2 ^ (23 - E - k)
  have hc : ((23 : ℤ) - (E : ℤ)) = ((23 - E : ℕ) : ℤ) := by omega
  have hpw : (2 : ℚ) ^ (23 - E) = 2 ^ (23 - E - k) * 2 ^ k := by
    rw [← pow_add]
    congr 1
    omega
  have hqm : q * (2 : ℚ) ^ ((23 : ℤ) - (E : ℤ)) = ((n * 2 ^ (23 - E - k) : ℕ) : ℚ) := by
    rw [hc, zpow_natCast, hq, div_mul_eq_mul_div, div_eq_iff (ne_of_gt hk2)]
    push_cast
    rw [hpw]
    ring
  have hne : q ≠ 0 := ne_of_gt hq0
  have hnlt : ¬q < 0 := not_lt_of_ge (le_of_lt hq0)
  rw [roundF32]
  simp only [hne, if_false, hnlt, abs_of_pos hq0, hexp]
  rw [hqm]
  have hrnd : roundHalfEven ((n * 2 ^ (23 - E - k) : ℕ) : ℚ) = ((n * 2 ^ (23 - E - k) : ℕ) : ℤ) := by
    exact_mod_cast roundHalfEven_intCast ((n * 2 ^ (23 - E - k) : ℕ) : ℤ)
  rw [hrnd]
  have he23 : ((E : ℤ) - 23) = -((23 - E : ℕ) : ℤ) := by omega
  rw [he23, zpow_neg, zpow_natCast, hq, inv_eq_one_div, mul_one_div,
    div_eq_div_iff (by positivity) (by positivity)]
  push_cast
  rw [hpw]
  ring

/-- Exactness on natural numbers below `2 ^ 24` (the `k = 0` case). -/
theorem roundF32_natCast (n : ℕ) (h2 : n < 2 ^ 24) :
    roundF32 (n : ℚ) = (n : ℚ) := by
  rcases Nat.eq_zero_or_pos n with h0 | h0
  · subst h0; simpa using roundF32_zero
  · have := roundF32_dyadic n 0 (by simpa using h0) h2
    simpa using this

/-- The saturating `f64 as u64` cast is the identity on naturals below
`2 ^ 64`. -/
theorem rustCastU64_natCast (v : ℕ) (h : v < 2 ^ 64) :
    rustCastU64 (v : ℚ) = v := by
  rw [rustCastU64, if_neg (not_lt_of_ge (Nat.cast_nonneg v)), Int.floor_natCast,
    Int.toNat_natCast]
  omega

/-- Evaluation rule for `expOfPos` at arguments at least 1. -/
theorem expOfPos_eval (q : ℚ) (n E : ℕ) (h1 : 1 ≤ q) (hf : ⌊q⌋.toNat = n)
    (hl : log2floorFuel 4096 n = E) : expOfPos q = (E : ℤ) := by
  unfold expOfPos
  rw [if_pos h1, hf, hl]

/-- Evaluation rule for `roundF32` at positive arguments with known exponent
and rounded mantissa. -/
theorem roundF32_eval (q : ℚ) (E : ℕ) (m : ℤ) (hq0 : 0 < q)
    (hE : expOfPos q = (E : ℤ))
    (hm : roundHalfEven (q * (2 : ℚ) ^ ((23 : ℤ) - (E : ℤ))) = m) :
    roundF32 q = (m : ℚ) * (2 : ℚ) ^ ((E : ℤ) - 23) := by
  have hne : q ≠ 0 := ne_of_gt hq0
  have hnlt : ¬q < 0 := not_lt_of_ge hq0.le
  rw [roundF32]
  simp only [hne, if_false, hnlt, abs_of_pos hq0, hE, hm]

/-! ## Association-list lemmas -/

theorem alLookup_update_of_some {α β : Type} [DecidableEq α]
    (l : List (α × β)) (k : α) (v w : β) (h : alLookup l k = some w) :
    alLookup (alUpdate l k v) k = some v := by
  induction l with
  | nil => simp [alLookup] at h
  | cons p rest ih =>
    by_cases hp : p.1 = k
    · simp [alLookup, alUpdate, hp]
    · rw [alLookup, if_neg hp] at h
      simp only [alUpdate, List.map_cons, if_neg hp]
      rw [alLookup, if_neg hp]
      exact ih h

theorem alLookup_append_of_none {α β : Type} [DecidableEq α]
    (l : List (α × β)) (k : α) (v : β) (h : alLookup l k = none) :
    alLookup (l ++ [(k, v)]) k = some v := by
  induction l with
  | nil => simp [alLookup]
  | cons p rest ih =>
    by_cases hp : p.1 = k
    · rw [alLookup, if_pos hp] at h
      exact absurd h (by simp)
    · rw [alLookup, if_neg hp] at h
      rw [List.cons_append, alLookup, if_neg hp]
      exact ih h

theorem mem_of_alLookup_eq_some {α β : Type} [DecidableEq α]
    (l : List (α × β)) (k : α) (v : β) (h : alLookup l k = some v) :
    (k, v) ∈ l := by
  induction l with
  | nil => simp [alLookup] at h
  | cons p rest ih =>
    by_cases hp : p.1 = k
    · rw [alLookup, if_pos hp] at h
      have hv : p.2 = v := Option.some.inj h
      have hpkv : p = (k, v) := by
        cases p
        simp only [Prod.mk.injEq]
        exact ⟨hp, hv⟩
      rw [← hpkv]
      exact List.mem_cons_self _ _
    · rw [alLookup, if_neg hp] at h
      exact List.mem_cons_of_mem _ (ih h)

/-! ## Library merge lemmas -/

/-- `DbcFrame::merge_entry` never writes the `id` field. -/
theorem merge_entry_preserves_id (f : DbcFrame) (e : Entry) (f2 : DbcFrame)
    (h : f.merge_entry e = .ok f2) : f2.id = f.id := by
  cases e with
  | MessageDefinition d => cases h; rfl
  | MessageDescription d => cases h; rfl
  | MessageAttribute d => cases h; rfl
  | SignalDefinition d =>
    rw [DbcFrame.merge_entry] at h
    cases hs : alLookup f.signals d.name <;> rw [hs] at h <;> cases h <;> rfl
  | SignalDescription d =>
    rw [DbcFrame.merge_entry] at h
    cases hs : alLookup f.signals d.signal_name <;> rw [hs] at h <;> cases h <;> rfl
  | SignalAttribute d =>
    rw [DbcFrame.merge_entry] at h
    cases hs : alLookup f.signals d.signal_name <;> rw [hs] at h <;> cases h <;> rfl
  | Version v => cases h
  | BusConfiguration s => cases h
  | Unknown r => cases h

/-- `DbcFrame::from_entry` always leaves the default `id = 0`. -/
theorem from_entry_id_zero (e : Entry) (f : DbcFrame)
    (h : DbcFrame.from_entry e = .ok f) : f.id = 0 := by
  cases e <;> cases h <;> rfl

/-- Merging a `SignalDefinition` into an existing frame always succeeds and
leaves a signal record carrying that definition under the signal name. -/
theorem merge_signal_definition (f : DbcFrame) (sd : DbcSignalDefinition) :
    ∃ f2 s2, f.merge_entry (.SignalDefinition sd) = .ok f2
      ∧ alLookup f2.signals sd.name = some s2 ∧ s2.definition = some sd := by
  rw [DbcFrame.merge_entry]
  cases hs : alLookup f.signals sd.name with
  | none =>
    exact ⟨_, _, rfl, alLookup_append_of_none _ _ _ hs, rfl⟩
  | some s =>
    exact ⟨_, _, rfl, alLookup_update_of_some _ _ _ _ hs, rfl⟩

/-- Ingesting a `MessageDefinition` always succeeds, sets `last_frame_id` to
the ID of the entry, and leaves a frame record under that ID. -/
theorem add_entry_message_definition_ok (lib : DbcLibrary) (fd : DbcFrameDefinition) :
    ∃ lib1 fr, lib.add_entry (.MessageDefinition fd) = .ok lib1
      ∧ lib1.last_id = some fd.id
      ∧ alLookup lib1.frames fd.id = some fr := by
  show ∃ lib1 fr, addResolved lib (.MessageDefinition fd) fd.id = .ok lib1 ∧ _
  rw [addResolved]
  cases hf : alLookup lib.frames fd.id with
  | none =>
    exact ⟨_, _, rfl, rfl, alLookup_append_of_none _ _ _ hf⟩
  | some f =>
    exact ⟨_, _, rfl, rfl, alLookup_update_of_some _ _ _ _ hf⟩

/-- Ingesting a `SignalDefinition` when `last_frame_id` points at an existing
frame attaches the signal (with its definition) to that frame. -/
theorem add_entry_signal_definition_ok (lib : DbcLibrary) (x : ℕ) (f : DbcFrame)
    (sd : DbcSignalDefinition) (hl : lib.last_id = some x)
    (hf : alLookup lib.frames x = some f) :
    ∃ lib2 f2 s2, lib.add_entry (.SignalDefinition sd) = .ok lib2
      ∧ alLookup lib2.frames x = some f2
      ∧ alLookup f2.signals sd.name = some s2 ∧ s2.definition = some sd := by
  obtain ⟨f2, s2, hmerge, hs2, hdef⟩ := merge_signal_definition f sd
  simp only [DbcLibrary.add_entry, hl, addResolved, hf, hmerge]
  exact ⟨_, f2, s2, rfl, alLookup_update_of_some _ _ _ _ hf, hs2, hdef⟩

/-- Any frame present after a successful `addResolved` either came from
`from_entry` (so has `id = 0`) or has the `id` field of a frame already in
the library. -/
theorem addResolved_ok_mem (lib : DbcLibrary) (e : Entry) (id : ℕ)
    (lib2 : DbcLibrary) (h : addResolved lib e id = .ok lib2)
    (p : ℕ × DbcFrame) (hp : p ∈ lib2.frames) :
    p.2.id = 0 ∨ ∃ q ∈ lib.frames, p.2.id = (q : ℕ × DbcFrame).2.id := by
  rw [addResolved] at h
  split at h
  · rename_i f hf
    split at h
    · rename_i f2 hm
      cases h
      rcases List.mem_map.mp hp with ⟨q, hq, hpq⟩
      by_cases hqid : q.1 = id
      · rw [if_pos hqid] at hpq
        rw [← hpq]
        exact Or.inr ⟨(id, f), mem_of_alLookup_eq_some _ _ _ hf,
          merge_entry_preserves_id f e f2 hm⟩
      · rw [if_neg hqid] at hpq
        rw [← hpq]
        exact Or.inr ⟨q, hq, rfl⟩
    · cases h
  · rename_i hf
    split at h
    · rename_i f hfe
      cases h
      rcases List.mem_append.mp hp with hL | hR
      · exact Or.inr ⟨p, hL, rfl⟩
      · have hpidf : p = (id, f) := by simpa using hR
        rw [hpidf]
        exact Or.inl (from_entry_id_zero e f hfe)
    · cases h

/-- As `addResolved_ok_mem`, for a successful `add_entry`. -/
theorem add_entry_ok_mem (lib : DbcLibrary) (e : Entry) (lib2 : DbcLibrary)
    (h : lib.add_entry e = .ok lib2) (p : ℕ × DbcFrame) (hp : p ∈ lib2.frames) :
    p.2.id = 0 ∨ ∃ q ∈ lib.frames, p.2.id = (q : ℕ × DbcFrame).2.id := by
  cases e with
  | MessageDefinition d =>
    rw [DbcLibrary.add_entry] at h
    exact addResolved_ok_mem _ _ _ _ h p hp
  | MessageDescription d =>
    rw [DbcLibrary.add_entry] at h
    exact addResolved_ok_mem _ _ _ _ h p hp
  | MessageAttribute d =>
    rw [DbcLibrary.add_entry] at h
    exact addResolved_ok_mem _ _ _ _ h p hp
  | SignalDescription d =>
    rw [DbcLibrary.add_entry] at h
    exact addResolved_ok_mem _ _ _ _ h p hp
  | SignalAttribute d =>
    rw [DbcLibrary.add_entry] at h
    exact addResolved_ok_mem _ _ _ _ h p hp
  | SignalDefinition d =>
    rw [DbcLibrary.add_entry] at h
    split at h
    · rename_i x hl
      exact addResolved_ok_mem _ _ _ _ h p hp
    · cases h
  | Version v => cases h
  | BusConfiguration s => cases h
  | Unknown r => cases h

/-- `addResolved` never returns an `err` outcome. -/
theorem addResolved_ne_err (lib : DbcLibrary) (e : Entry) (id : ℕ) (m : String)
    (l2 : DbcLibrary) : addResolved lib e id ≠ .err m l2 := by
  rw [addResolved]
  intro h
  split at h
  · split at h <;> cases h
  · split at h <;> cases h

/-- An `err` outcome of `add_entry` carries the untouched library. -/
theorem add_entry_err_lib (lib : DbcLibrary) (e : Entry) (m : String)
    (l2 : DbcLibrary) (h : lib.add_entry e = .err m l2) : l2 = lib := by
  cases e with
  | MessageDefinition d =>
    rw [DbcLibrary.add_entry] at h
    exact absurd h (addResolved_ne_err _ _ _ _ _)
  | MessageDescription d =>
    rw [DbcLibrary.add_entry] at h
    exact absurd h (addResolved_ne_err _ _ _ _ _)
  | MessageAttribute d =>
    rw [DbcLibrary.add_entry] at h
    exact absurd h (addResolved_ne_err _ _ _ _ _)
  | SignalDescription d =>
    rw [DbcLibrary.add_entry] at h
    exact absurd h (addResolved_ne_err _ _ _ _ _)
  | SignalAttribute d =>
    rw [DbcLibrary.add_entry] at h
    exact absurd h (addResolved_ne_err _ _ _ _ _)
  | SignalDefinition d =>
    rw [DbcLibrary.add_entry] at h
    split at h
    · rename_i x hl
      exact absurd h (addResolved_ne_err _ _ _ _ _)
    · cases h
      rfl
  | Version v => cases h; rfl
  | BusConfiguration s => cases h; rfl
  | Unknown r => cases h; rfl

/-- Folding entries through `addOk` preserves the invariant that every
frame record in the library has `id = 0`. -/
theorem foldl_addOk_id_zero (es : List Entry) (lib : DbcLibrary)
    (hinv : ∀ p ∈ lib.frames, (p : ℕ × DbcFrame).2.id = 0) :
    ∀ p ∈ (es.foldl addOk lib).frames, (p : ℕ × DbcFrame).2.id = 0 := by
  induction es generalizing lib with
  | nil => exact hinv
  | cons e rest ih =>
    rw [List.foldl_cons]
    apply ih
    rw [addOk]
    cases h : lib.add_entry e with
    | ok lib2 =>
      intro p hp
      rcases add_entry_ok_mem lib e lib2 h p hp with h0 | ⟨q, hq, hpq⟩
      · exact h0
      · rw [hpq]
        exact hinv q hq
    | err m l2 =>
      rw [add_entry_err_lib lib e m l2 h]
      exact hinv
    | panicked => exact hinv

/-- Evaluation rule for `parse_array` once the raw extraction is known. -/
theorem parse_array_eval (bl sb : ℕ) (le : Bool) (sc off : ℚ) (msg : List ℕ)
    (raw : ℕ)
    (h : ((if le then readU64LE msg else readU64BE msg) >>> sb) &&& (2 ^ bl - 1) = raw) :
    parse_array bl sb le sc off msg = some (f32add (f32mul (f32ofNat raw) sc) off) := by
  simp only [parse_array, h]

/-- Evaluation rule for `decode_message` once the raw extraction is known. -/
theorem decode_message_eval (bl sb : ℕ) (le : Bool) (sc off : ℚ) (msg : List ℕ)
    (raw : ℕ) (hne : msg ≠ [])
    (h : ((if le then readU64LE (padTo8 msg) else readU64BE (padTo8 msg)) >>> sb)
        &&& (2 ^ bl - 1) = raw) :
    decode_message bl sb le sc off msg
      = some (f32add (f32mul (f32ofNat raw) sc) off) := by
  simp only [decode_message, if_neg hne, h]

/-! ## Claim theorems -/

/-- C8: decoding the bytes `[0x11,0x22,0x33,0x44,0x55,0x66,0x77,0x88]` with
the layout `start_bit = 24`, `bit_length = 16`, `little_endian = true`,
`signed = false`, `scale = 0.125`, `offset = 0.0` yields exactly `2728.5`.
(The extracted raw value is `0x5544 = 21828`, and `21828 * 0.125 = 2728.5`
is computed exactly by binary32 arithmetic since both factors and the result
are representable.) -/
theorem canparse_C8_concrete_decode :
    DbcSignalDefinition.decode
      { name := "Engine_Speed", start_bit := 24, bit_len := 16,
        little_endian := true, signed := false, scale := 0.125, offset := 0,
        min_value := 0, max_value := 0, units := "rpm",
        receiving_node := "Vector__XXX" }
      [0x11, 0x22, 0x33, 0x44, 0x55, 0x66, 0x77, 0x88] = some (2728.5 : ℚ) := by
  rw [DbcSignalDefinition.decode]
  rw [decode_message_eval 16 24 true (0.125 : ℚ) 0 _ 21828 (by decide) (by decide)]
  rw [f32ofNat, roundF32_natCast 21828 (by norm_num), f32mul]
  have hm : ((21828 : ℕ) : ℚ) * (0.125 : ℚ) = ((5457 : ℕ) : ℚ) / 2 ^ 1 := by
    push_cast
    norm_num
  rw [hm, roundF32_dyadic 5457 1 (by norm_num) (by norm_num), f32add, add_zero,
    roundF32_dyadic 5457 1 (by norm_num) (by norm_num)]
  push_cast
  norm_num

/-- C9: for every 8-byte buffer and layout, little-endian decode of the
buffer agrees with big-endian decode of the byte-reversed buffer. -/
theorem canparse_C9_endianness_symmetry (bl sb : ℕ) (sc off : ℚ)
    (b0 b1 b2 b3 b4 b5 b6 b7 : ℕ) :
    parse_array bl sb true sc off [b0, b1, b2, b3, b4, b5, b6, b7]
      = parse_array bl sb false sc off ([b0, b1, b2, b3, b4, b5, b6, b7].reverse) := by
  have hrev : [b0, b1, b2, b3, b4, b5, b6, b7].reverse
      = [b7, b6, b5, b4, b3, b2, b1, b0] := by simp
  have hword : readU64BE [b7, b6, b5, b4, b3, b2, b1, b0]
      = readU64LE [b0, b1, b2, b3, b4, b5, b6, b7] := by
    simp only [readU64BE, readU64LE, List.getD_cons_zero, List.getD_cons_succ]
    ring
  rw [hrev]
  simp only [parse_array, if_true, Bool.false_eq_true, if_false, hword]

/-- C4: signal-level decode of a byte buffer fails exactly on the empty
buffer; a nonempty buffer is decoded as its zero-padded 8-byte extension;
and (for a little-endian layout whose bits end at or below bit 55) decoding
the 7-byte prefix of an 8-byte message agrees with decoding the full
message. -/
theorem canparse_C4_short_buffer (bl sb : ℕ) (le : Bool) (sc off : ℚ)
    (msg : List ℕ) (b0 b1 b2 b3 b4 b5 b6 b7 : ℕ) (hfit : sb + bl ≤ 56) :
    (decode_message bl sb le sc off msg = none ↔ msg = [])
    ∧ (msg ≠ [] →
        decode_message bl sb le sc off msg = parse_array bl sb le sc off (padTo8 msg))
    ∧ decode_message bl sb true sc off [b0, b1, b2, b3, b4, b5, b6]
        = decode_message bl sb true sc off [b0, b1, b2, b3, b4, b5, b6, b7] := by
  refine ⟨?_, ?_, ?_⟩
  · by_cases h : msg = []
    · simp [decode_message, h]
    · simp [decode_message, h]
  · intro h
    simp [decode_message, parse_array, if_neg h]
  · have hw : readU64LE (padTo8 [b0, b1, b2, b3, b4, b5, b6, b7])
        = readU64LE (padTo8 [b0, b1, b2, b3, b4, b5, b6]) + b7 * 2 ^ 56 := by
      show readU64LE [b0, b1, b2, b3, b4, b5, b6, b7]
        = readU64LE [b0, b1, b2, b3, b4, b5, b6, 0] + b7 * 2 ^ 56
      simp only [readU64LE, List.getD_cons_zero, List.getD_cons_succ]
      ring
    simp only [decode_message, if_neg (by simp : ¬([b0, b1, b2, b3, b4, b5, b6] : List ℕ) = []),
      if_neg (by simp : ¬([b0, b1, b2, b3, b4, b5, b6, b7] : List ℕ) = []), if_true]
    rw [hw, extract_add_high _ _ _ _ hfit]

/-- Witness for C4 at a concrete layout and message. -/
theorem canparse_C4_witness :
    24 + 16 ≤ 56
    ∧ ((decode_message 16 24 true (0.125 : ℚ) 0 [0x11] = none ↔ ([0x11] : List ℕ) = [])
      ∧ (([0x11] : List ℕ) ≠ [] →
          decode_message 16 24 true (0.125 : ℚ) 0 [0x11]
            = parse_array 16 24 true (0.125 : ℚ) 0 (padTo8 [0x11]))
      ∧ decode_message 16 24 true (0.125 : ℚ) 0 [0x11, 0x22, 0x33, 0x44, 0x55, 0x66, 0x77]
          = decode_message 16 24 true (0.125 : ℚ) 0
              [0x11, 0x22, 0x33, 0x44, 0x55, 0x66, 0x77, 0x88]) :=
  ⟨by norm_num,
    canparse_C4_short_buffer 16 24 true (0.125 : ℚ) 0 [0x11]
      0x11 0x22 0x33 0x44 0x55 0x66 0x77 0x88 (by norm_num)⟩

/-- C7: decode never applies the `signed` flag: the result is unchanged under
flipping it, and equals the unsigned extracted raw value — a natural number
below `2 ^ bit_len` — scaled and offset in `f32` arithmetic, with no
two-complement sign extension. -/
theorem canparse_C7_signedness_ignored (d : DbcSignalDefinition) (b : Bool)
    (msg : List ℕ) (hne : msg ≠ []) :
    DbcSignalDefinition.decode { d with signed := b } msg
        = DbcSignalDefinition.decode d msg
    ∧ ∃ raw : ℕ, raw < 2 ^ d.bit_len
        ∧ raw = ((if d.little_endian then readU64LE (padTo8 msg)
              else readU64BE (padTo8 msg)) >>> d.start_bit) &&& (2 ^ d.bit_len - 1)
        ∧ DbcSignalDefinition.decode d msg
            = some (f32add (f32mul (f32ofNat raw) d.scale) d.offset) := by
  constructor
  · simp [DbcSignalDefinition.decode]
  · refine ⟨_, ?_, rfl, ?_⟩
    · exact extract_lt _ _ _
    · rw [DbcSignalDefinition.decode]
      exact decode_message_eval _ _ _ _ _ _ _ hne rfl

/-- Witness for C7 at a concrete layout and message. -/
theorem canparse_C7_witness :
    ([0x11, 0x22] : List ℕ) ≠ []
    ∧ (DbcSignalDefinition.decode
        { name := "S", start_bit := 0, bit_len := 8, little_endian := true,
          signed := true, scale := 1, offset := 0, min_value := 0,
          max_value := 0, units := "", receiving_node := "" } [0x11, 0x22]
        = DbcSignalDefinition.decode
        { name := "S", start_bit := 0, bit_len := 8, little_endian := true,
          signed := false, scale := 1, offset := 0, min_value := 0,
          max_value := 0, units := "", receiving_node := "" } [0x11, 0x22]) :=
  ⟨by simp,
    (canparse_C7_signedness_ignored
      { name := "S", start_bit := 0, bit_len := 8, little_endian := true,
        signed := false, scale := 1, offset := 0, min_value := 0,
        max_value := 0, units := "", receiving_node := "" }
      true [0x11, 0x22] (by simp)).1⟩

/-- C6 counterexample: with layout `bit_len = 26`, `start_bit = 0`,
`scale = 1`, `offset = 0`, the raw value `2 ^ 25 + 1 = 33554433` is
representable in 26 bits, is accepted by `encode_signal`, and encodes
exactly — but decode converts the extracted raw value to `f32`, whose
24-bit significand rounds `33554433` to `33554432`, so encode-then-decode
is not the identity. -/
theorem canparse_C6_counterexample :
    encode_signal 26 0 true 1 0 33554433 = .ok [1, 0, 0, 2, 0, 0, 0, 0]
    ∧ parse_array 26 0 true 1 0 [1, 0, 0, 2, 0, 0, 0, 0] = some (33554432 : ℚ)
    ∧ (33554432 : ℚ) ≠ 33554433 := by
  have hr33 : expOfPos (33554433 : ℚ) = (25 : ℤ) :=
    expOfPos_eval _ 33554433 25 (by norm_num)
      (by rw [show ⌊(33554433 : ℚ)⌋ = (33554433 : ℤ) from by norm_num]; decide)
      (by decide)
  have hm33 : roundHalfEven ((33554433 : ℚ) * (2 : ℚ) ^ ((23 : ℤ) - (25 : ℤ))) = 8388608 := by
    have he : (33554433 : ℚ) * (2 : ℚ) ^ ((23 : ℤ) - (25 : ℤ)) = 33554433 / 4 := by
      norm_num
    rw [he]
    norm_num [roundHalfEven]
  have hfr : roundF32 (33554433 : ℚ) = 33554432 := by
    rw [roundF32_eval (33554433 : ℚ) 25 8388608 (by norm_num) hr33 hm33]
    norm_num
  have hr32 : expOfPos (33554432 : ℚ) = (25 : ℤ) :=
    expOfPos_eval _ 33554432 25 (by norm_num)
      (by rw [show ⌊(33554432 : ℚ)⌋ = (33554432 : ℤ) from by norm_num]; decide)
      (by decide)
  have hm32 : roundHalfEven ((33554432 : ℚ) * (2 : ℚ) ^ ((23 : ℤ) - (25 : ℤ))) = 8388608 := by
    have he : (33554432 : ℚ) * (2 : ℚ) ^ ((23 : ℤ) - (25 : ℤ)) = 8388608 := by
      norm_num
    rw [he]
    norm_num [roundHalfEven]
  have hfr2 : roundF32 (33554432 : ℚ) = 33554432 := by
    rw [roundF32_eval (33554432 : ℚ) 25 8388608 (by norm_num) hr32 hm32]
    norm_num
  refine ⟨?_, ?_, by norm_num⟩
  · have hdata : ((33554433 : ℚ) - 0) / 1 = ((33554433 : ℕ) : ℚ) := by
      push_cast
      norm_num
    simp only [encode_signal, hdata]
    rw [if_neg (by push_cast; norm_num : ¬(2 : ℚ) ^ 26 < ((33554433 : ℕ) : ℚ)),
      rustCastU64_natCast 33554433 (by norm_num)]
    have hbytes : toLeBytes 33554433 = [1, 0, 0, 2, 0, 0, 0, 0] := by decide
    simp [hbytes]
  · rw [parse_array_eval 26 0 true 1 0 _ 33554433 (by decide), f32ofNat,
      show ((33554433 : ℕ) : ℚ) = (33554433 : ℚ) from by push_cast; ring,
      hfr, f32mul, mul_one, hfr2, f32add, add_zero, hfr2]

/-- C6 (amended): for every `(start_bit, bit_len)` with
`start_bit + bit_len ≤ 64` and every raw value representable in `bit_len`
bits **and exactly representable in `f32` (below `2 ^ 24`)**, with the fixed
conversion `scale = 1`, `offset = 0`, encode-then-decode is the identity in
either endianness. -/
theorem canparse_C6_roundtrip (sb bl v : ℕ) (le : Bool) (hsum : sb + bl ≤ 64)
    (hv : v < 2 ^ bl) (hv24 : v < 2 ^ 24) :
    ∃ bytes, encode_signal bl sb le 1 0 (v : ℚ) = .ok bytes
      ∧ parse_array bl sb le 1 0 bytes = some ((v : ℕ) : ℚ) := by
  have hvlt64 : v * 2 ^ sb < 2 ^ 64 := by
    have h1 : v * 2 ^ sb < 2 ^ bl * 2 ^ sb :=
      Nat.mul_lt_mul_of_pos_right hv (Nat.pos_pow_of_pos sb (by norm_num))
    have h2 : (2 : ℕ) ^ bl * 2 ^ sb = 2 ^ (bl + sb) := (pow_add 2 bl sb).symm
    have h3 : (2 : ℕ) ^ (bl + sb) ≤ 2 ^ 64 :=
      Nat.pow_le_pow_right (by norm_num) (by omega)
    omega
  have hdata : ((v : ℚ) - 0) / 1 = (v : ℚ) := by norm_num
  have hcond : ¬(2 : ℚ) ^ bl < (v : ℚ) := by
    have hlt : (v : ℚ) < (2 : ℚ) ^ bl := by exact_mod_cast hv
    linarith
  have hcast : rustCastU64 (v : ℚ) = v :=
    rustCastU64_natCast v (lt_trans hv24 (by norm_num))
  have hmod : v * 2 ^ sb % 2 ^ 64 = v * 2 ^ sb := Nat.mod_eq_of_lt hvlt64
  have hextract : ((v * 2 ^ sb) >>> sb) &&& (2 ^ bl - 1) = v := by
    rw [extract_eq_div_mod,
      Nat.mul_div_cancel _ (Nat.pos_pow_of_pos sb (by norm_num)),
      Nat.mod_eq_of_lt hv]
  have hchain : f32add (f32mul (f32ofNat v) 1) 0 = ((v : ℕ) : ℚ) := by
    rw [f32ofNat, roundF32_natCast v hv24, f32mul, mul_one,
      roundF32_natCast v hv24, f32add, add_zero, roundF32_natCast v hv24]
  cases le with
  | true =>
    refine ⟨toLeBytes (v * 2 ^ sb), ?_, ?_⟩
    · simp only [encode_signal, hdata]
      rw [if_neg hcond, hcast, hmod]
      simp
    · rw [parse_array_eval bl sb true 1 0 _ v
        (by simp only [if_true]; rw [readU64LE_toLeBytes _ hvlt64, hextract])]
      exact congrArg some hchain
  | false =>
    refine ⟨toBeBytes (v * 2 ^ sb), ?_, ?_⟩
    · simp only [encode_signal, hdata]
      rw [if_neg hcond, hcast, hmod]
      simp
    · rw [parse_array_eval bl sb false 1 0 _ v
        (by simp only [Bool.false_eq_true, if_false];
            rw [readU64BE_toBeBytes _ hvlt64, hextract])]
      exact congrArg some hchain

/-- Witness for C6 (amended) at a concrete layout and raw value. -/
theorem canparse_C6_witness :
    24 + 16 ≤ 64 ∧ 21828 < 2 ^ 16 ∧ 21828 < 2 ^ 24
    ∧ ∃ bytes, encode_signal 16 24 true 1 0 ((21828 : ℕ) : ℚ) = .ok bytes
        ∧ parse_array 16 24 true 1 0 bytes = some ((21828 : ℕ) : ℚ) :=
  ⟨by norm_num, by norm_num, by norm_num,
    canparse_C6_roundtrip 24 16 21828 true (by norm_num) (by norm_num) (by norm_num)⟩

/-- C1: the frame-level encode loop `for i in 0..7` OR-combines only byte
indices 0-6 of the 8-byte contribution of each signal, dropping byte index 7.
For the frame `frameHigh`, whose single signal occupies bits 56..63 (byte 7
of the little-endian word), encoding the value 1 succeeds but produces the
all-zero buffer, and decoding the signal back yields 0, not the supplied 1.
(Both the `Vec<u8>` and the `[u8; 8]` impl in the source run this identical loop.) -/
theorem canparse_C1_high_byte_dropped :
    frameHigh.encode_message [("S", (1 : ℚ))] = .ok [0, 0, 0, 0, 0, 0, 0, 0]
    ∧ sigHigh.decode_message [0, 0, 0, 0, 0, 0, 0, 0] = some (0 : ℚ)
    ∧ (0 : ℚ) ≠ 1 := by
  have henc : encode_signal 8 56 true 1 0 1 = .ok [0, 0, 0, 0, 0, 0, 0, 1] := by
    have hdata : ((1 : ℚ) - 0) / 1 = ((1 : ℕ) : ℚ) := by push_cast; norm_num
    simp only [encode_signal, hdata]
    rw [if_neg (by push_cast; norm_num : ¬(2 : ℚ) ^ 8 < ((1 : ℕ) : ℚ)),
      rustCastU64_natCast 1 (by norm_num)]
    have hbytes : toLeBytes 72057594037927936 = [0, 0, 0, 0, 0, 0, 0, 1] := by decide
    simp [hbytes]
  have hlk : alLookup [("S", (1 : ℚ))] "S" = some 1 := by
    rw [alLookup, if_pos rfl]
  refine ⟨?_, ?_, by norm_num⟩
  · rw [DbcFrame.encode_message]
    have hsigs : frameHigh.get_signals = [sigHigh] := rfl
    rw [hsigs, encodeLoop]
    simp only [sigHigh, sigHighDef, hlk, henc]
    rw [encodeLoop]
    congr 1
  · rw [DbcSignal.decode_message]
    simp only [sigHigh, sigHighDef]
    rw [decode_message_eval 8 56 true 1 0 _ 0 (by decide) (by decide)]
    simp [f32ofNat, f32mul, f32add, roundF32_zero]

/-- C2 counterexample: ingesting a `SignalDescription` whose frame ID has no
Frame Record panics (the `or_insert_with` closure calls
`DbcFrame::from_entry`, which rejects signal-level entries, and
`unwrap_or_else(|_| panic!(..))` fires) — it does not return `Ok` with a
newly seeded Frame Record. -/
theorem canparse_C2_counterexample :
    dbDefault.add_entry
      (.SignalDescription { id := 7, signal_name := "Sig", description := "txt" })
      = .panicked := rfl

/-- C2 (amended): `add_entry` panics exactly when the entry is signal-level
and its resolved frame ID has no Frame Record: a `SignalDescription` or
`SignalAttribute` whose own ID is unknown, or a `SignalDefinition` whose
`last_frame_id` points at a missing frame.  In every other case it returns
without panicking (`Ok`, `MissingContext`, or `UnsupportedEntry`); no Frame
Record is ever seeded from a signal-level entry. -/
theorem canparse_C2_panic_characterization (lib : DbcLibrary) (e : Entry) :
    lib.add_entry e = .panicked ↔
      ((∃ d, e = .SignalDescription d ∧ alLookup lib.frames d.id = none)
        ∨ (∃ d, e = .SignalAttribute d ∧ alLookup lib.frames d.id = none)
        ∨ (∃ d x, e = .SignalDefinition d ∧ lib.last_id = some x
            ∧ alLookup lib.frames x = none)) := by
  cases e with
  | Version v => simp [DbcLibrary.add_entry]
  | BusConfiguration s => simp [DbcLibrary.add_entry]
  | Unknown r => simp [DbcLibrary.add_entry]
  | MessageDefinition d =>
    cases hf : alLookup lib.frames d.id <;>
      simp [DbcLibrary.add_entry, addResolved, hf, DbcFrame.merge_entry,
        DbcFrame.from_entry]
  | MessageDescription d =>
    cases hf : alLookup lib.frames d.id <;>
      simp [DbcLibrary.add_entry, addResolved, hf, DbcFrame.merge_entry,
        DbcFrame.from_entry]
  | MessageAttribute d =>
    cases hf : alLookup lib.frames d.id <;>
      simp [DbcLibrary.add_entry, addResolved, hf, DbcFrame.merge_entry,
        DbcFrame.from_entry]
  | SignalDescription d =>
    cases hf : alLookup lib.frames d.id with
    | none => simp [DbcLibrary.add_entry, addResolved, hf, DbcFrame.from_entry]
    | some f =>
      cases hs : alLookup f.signals d.signal_name <;>
        simp [DbcLibrary.add_entry, addResolved, hf, DbcFrame.merge_entry, hs,
          DbcSignal.from_entry, DbcSignal.merge_entry]
  | SignalAttribute d =>
    cases hf : alLookup lib.frames d.id with
    | none => simp [DbcLibrary.add_entry, addResolved, hf, DbcFrame.from_entry]
    | some f =>
      cases hs : alLookup f.signals d.signal_name <;>
        simp [DbcLibrary.add_entry, addResolved, hf, DbcFrame.merge_entry, hs,
          DbcSignal.from_entry, DbcSignal.merge_entry]
  | SignalDefinition d =>
    cases hl : lib.last_id with
    | none => simp [DbcLibrary.add_entry, hl]
    | some x =>
      cases hf : alLookup lib.frames x with
      | none => simp [DbcLibrary.add_entry, hl, addResolved, hf, DbcFrame.from_entry]
      | some f =>
        cases hs : alLookup f.signals d.name <;>
          simp [DbcLibrary.add_entry, hl, addResolved, hf, DbcFrame.merge_entry,
            hs, DbcSignal.from_entry, DbcSignal.merge_entry]

/-- C3: ingesting a `FrameDefinition` for ID `X` and then an ID-less
`SignalDefinition` attaches the signal (with its definition) to the Frame
Record keyed `X`; ingesting the `SignalDefinition` into a library in which
no frame has been seen yet (`last_frame_id` unset) fails with the
`MissingContext` error string and leaves the library unchanged. -/
theorem canparse_C3_merge_ordering (lib : DbcLibrary) (fd : DbcFrameDefinition)
    (sd : DbcSignalDefinition) (h : lib.last_id = none) :
    (∃ lib1 lib2 fr sig,
        lib.add_entry (.MessageDefinition fd) = .ok lib1
        ∧ lib1.add_entry (.SignalDefinition sd) = .ok lib2
        ∧ lib2.get_frame fd.id = some fr
        ∧ fr.get_signal sd.name = some sig
        ∧ sig.definition = some sd)
    ∧ lib.add_entry (.SignalDefinition sd)
        = .err "Tried to add SignalDefinition without last ID." lib := by
  constructor
  · obtain ⟨lib1, fr, h1, hl1, hf1⟩ := add_entry_message_definition_ok lib fd
    obtain ⟨lib2, f2, s2, h2, hf2, hs2, hdef⟩ :=
      add_entry_signal_definition_ok lib1 fd.id fr sd hl1 hf1
    exact ⟨lib1, lib2, f2, s2, h1, h2, hf2, hs2, hdef⟩
  · simp [DbcLibrary.add_entry, h]

/-- Witness for C3 at a concrete frame and signal definition. -/
theorem canparse_C3_witness :
    dbDefault.last_id = none
    ∧ ((∃ lib1 lib2 fr sig,
          dbDefault.add_entry (.MessageDefinition
            { id := 2364539904, name := "EEC1", message_len := 8,
              sending_node := "ECU" }) = .ok lib1
          ∧ lib1.add_entry (.SignalDefinition
              { name := "Engine_Speed", start_bit := 24, bit_len := 16,
                little_endian := true, signed := false, scale := 1, offset := 0,
                min_value := 0, max_value := 0, units := "rpm",
                receiving_node := "V" }) = .ok lib2
          ∧ lib2.get_frame 2364539904 = some fr
          ∧ fr.get_signal "Engine_Speed" = some sig
          ∧ sig.definition = some
              { name := "Engine_Speed", start_bit := 24, bit_len := 16,
                little_endian := true, signed := false, scale := 1, offset := 0,
                min_value := 0, max_value := 0, units := "rpm",
                receiving_node := "V" })
        ∧ dbDefault.add_entry (.SignalDefinition
            { name := "Engine_Speed", start_bit := 24, bit_len := 16,
              little_endian := true, signed := false, scale := 1, offset := 0,
              min_value := 0, max_value := 0, units := "rpm",
              receiving_node := "V" })
          = .err "Tried to add SignalDefinition without last ID." dbDefault) :=
  ⟨rfl, canparse_C3_merge_ordering dbDefault
    { id := 2364539904, name := "EEC1", message_len := 8, sending_node := "ECU" }
    { name := "Engine_Speed", start_bit := 24, bit_len := 16,
      little_endian := true, signed := false, scale := 1, offset := 0,
      min_value := 0, max_value := 0, units := "rpm", receiving_node := "V" }
    rfl⟩

/-- C10: every frame record reachable through `get_frame` on a library built
exclusively by `add_entry` calls (from the default empty library) has
`get_id() = 0`, because `DbcFrame::from_entry` discards the frame ID of the entry
and `DbcFrame::merge_entry` never writes the `id` field — regardless of the
map key `X` it was inserted under. -/
theorem canparse_C10_frame_id_zero (es : List Entry) (X : ℕ) (fr : DbcFrame)
    (h : (es.foldl addOk dbDefault).get_frame X = some fr) : fr.get_id = 0 := by
  have hinv := foldl_addOk_id_zero es dbDefault (by intro p hp; simp [dbDefault] at hp)
  rw [DbcLibrary.get_frame] at h
  exact hinv _ (mem_of_alLookup_eq_some _ _ _ h)

/-- Witness for C10: one `BO_` entry with frame ID 5 yields a record stored
under key 5 whose `get_id()` is 0. -/
theorem canparse_C10_witness :
    ([Entry.MessageDefinition
        { id := 5, name := "A", message_len := 8, sending_node := "N" }].foldl
      addOk dbDefault).get_frame 5
      = some
          { name := "A", id := 0, message_len := 8, sending_node := "N",
            attributes := [], description := none, signals := [] }
    ∧ DbcFrame.get_id
        { name := "A", id := 0, message_len := 8, sending_node := "N",
          attributes := [], description := none, signals := [] } = 0 :=
  ⟨rfl, canparse_C10_frame_id_zero
    [Entry.MessageDefinition
      { id := 5, name := "A", message_len := 8, sending_node := "N" }] 5 _ rfl⟩

end Canparse
